import Mathlib

/-!
# YADMB: the enqueue pipeline and the command dispatcher

A shallow embedding of `src/download.go` (`downloadAndPlay`, `spotifyPlaylist`)
and of `src/main.go` (`messageCreate`) of the YADMB music bot.

* Go strings are lists of characters (`Str`).
* The package-level map `queue` is a function from guild id to a list of
  `Queue` entries; every effect on the outside world (external processes,
  file system, database, launched goroutines) is appended to a trace of
  `Event`s, in program order.
* Whatever the outside world answers (the database lookup, the output of
  `youtube-dl`, `os.Stat`, the exit status of a process, the playlist API)
  is read from an `Env` of oracles that see the trace so far.
* A goroutine started by a `go` statement is recorded at the point where
  it is launched and is not run: the model is the sequential behaviour of
  the function that launches it.
-/

namespace YADMB

/-- Go `string`, as the list of its characters. -/
abbrev Str := List Char

/-! ## The functions of Go's `strings` and `strconv` that the sources call -/

/-- Go `strings.HasPrefix`. -/
def HasPrefix (s pre : Str) : Bool := pre.isPrefixOf s

/-- Go `strings.TrimPrefix`: `s` without the leading `pre`, or `s` itself
when it does not start with `pre`. -/
def TrimPrefix (s pre : Str) : Str :=
  if HasPrefix s pre then s.drop pre.length else s

/-- Go `strings.HasSuffix`. -/
def HasSuffix (s suf : Str) : Bool := suf.isSuffixOf s

/-- Go `strings.TrimSuffix`. -/
def TrimSuffix (s suf : Str) : Str :=
  if HasSuffix s suf then s.take (s.length - suf.length) else s

/-- Go `strings.Split(s, sep)` for a separator of one byte (the sources
split on a newline and on a blank only). The result is never empty:
splitting the empty string gives one empty field. -/
def Split : Str → Char → List Str
  | [], _ => [[]]
  | c :: cs, sep =>
    if c = sep then [] :: Split cs sep
    else
      match Split cs sep with
      | [] => [[c]]
      | w :: ws => (c :: w) :: ws

/-- Go `unicode.ToLower` on one rune: the ASCII range is computed, the
mapping `u` of the runes outside ASCII is a parameter. -/
def lowerRune (u : Char → Char) (c : Char) : Char :=
  if c.toNat < 128 then c.toLower else u c

/-- Go `strings.ToLower`: rune by rune. -/
def ToLower (u : Char → Char) (s : Str) : Str := s.map (lowerRune u)

/-- Go `strconv.Itoa` on a loop index (never negative). -/
def Itoa (i : Nat) : Str := (Nat.repr i).toList

/-! ## Data model -/

/-- The struct `Queue` of the repository, built positionally in
`downloadAndPlay` as `Queue{title, duration, id, link, user, nil, 0, "", nil}`.
Only the five fields the sources read or write by name are kept; the four
trailing fields are the zero value in every entry `downloadAndPlay` builds. -/
structure Queue where
  title : Str
  duration : Str
  id : Str
  link : Str
  user : Str
deriving DecidableEq, Repr

/-- The struct `YoutubeDL` that one line of `youtube-dl -j` is decoded into.
`D` is the type of the `Duration` field, which the sources only hand to
`formatDuration`. -/
structure YoutubeDL (D : Type) where
  ID : Str
  Extractor : Str
  Title : Str
  Duration : D
  WebpageURL : Str
deriving DecidableEq, Repr

/-- One track of a Spotify playlist: `track.Track.Name` and the names of
`track.Track.Artists`, in order. -/
structure Track where
  Name : Str
  Artists : List Str
deriving DecidableEq, Repr

/-- The effects of the program on the outside world, in program order. -/
inductive Event where
  /-- `go sendAndDeleteEmbed(...)` announcing the enqueued link. -/
  | sendEmbed (txtChannel link : Str)
  /-- `youtube-dl --ignore-errors -q --no-warnings -j link` (metadata). -/
  | ytdlInfo (link : Str)
  /-- `os.Stat(path)`. -/
  | stat (path : Str)
  /-- `addToDb(el)`. -/
  | addToDb (el : Queue)
  /-- `youtube-dl -o output -x --audio-format m4a url`, and whether it
  succeeded (the program discards the status). -/
  | ytdlDownload (output url : Str) (ok : Bool)
  /-- `bash gen.sh fileName input`, and whether it succeeded. -/
  | genSh (fileName input : Str) (ok : Bool)
  /-- `gen.bat fileName input`, and whether it succeeded. -/
  | genBat (fileName input : Str) (ok : Bool)
  /-- `os.Remove(path)`. -/
  | remove (path : Str)
  /-- `go playSound(s, guildID, channelID, file, txtChannel)`. -/
  | playSound (guildID channelID file txtChannel : Str)
  /-- `client.GetPlaylist(id)`. -/
  | getPlaylist (id : Str)
  /-- `fmt.Println(err)` after a failed `GetPlaylist`. -/
  | printErr
  /-- `go searchDownloadAndPlay(s, guildID, channelID, query, user, txtChannel, random)`. -/
  | goSearch (guildID channelID query user txtChannel : Str) (random : Bool)
deriving DecidableEq, Repr

/-- The mutable state the modelled functions touch: the package-level map
`queue` and the trace of effects. -/
structure State where
  queue : Str → List Queue
  trace : List Event

/-- Append one effect to the trace. -/
def State.emit (st : State) (e : Event) : State :=
  { st with trace := st.trace ++ [e] }

/-- The statement `queue[guildID] = append(queue[guildID], el)`. -/
def State.enqueue (st : State) (guildID : Str) (el : Queue) : State :=
  { st with queue := fun g => if g = guildID then st.queue guildID ++ [el] else st.queue g }

/-- The outside world. Each oracle sees the trace of the effects so far, so
that its answer may depend on everything that happened before the call. -/
structure Env (D : Type) where
  /-- `checkInDb(link)` (a function of the repository whose body is in
  another file): the cached entry, or an entry with an empty title. -/
  checkInDb : List Event → Str → Queue
  /-- Standard output of `youtube-dl -j link` (empty when the tool fails). -/
  ytdlOutput : List Event → Str → Str
  /-- `shuffle(strOut)` (body in another file). -/
  shuffle : List Event → List Str → List Str
  /-- `json.Unmarshal([]byte(line), &ytdl)` as a function of the line and of
  the value `ytdl` holds before the call, giving the value it holds after;
  the returned error is discarded by the program. -/
  unmarshal : Str → YoutubeDL D → YoutubeDL D
  /-- `formatDuration` (body in another file). -/
  formatDuration : D → Str
  /-- The zero value of the `Duration` field. -/
  zeroDuration : D
  /-- Whether `os.Stat(path)` returns an error (the file is not there). -/
  statErr : List Event → Str → Bool
  /-- Whether the download to `output` from `url` succeeds. -/
  downloadOk : List Event → Str → Str → Bool
  /-- Whether the conversion script succeeds on `fileName`. -/
  convertOk : List Event → Str → Bool
  /-- `runtime.GOOS`. -/
  goos : Str
  /-- `client.GetPlaylist(id)`: the tracks, or `none` for an error. -/
  getPlaylist : List Event → Str → Option (List Track)

/-! ## `downloadAndPlay` (src/download.go) -/

/-- The zero value of `YoutubeDL` (`var ytdl YoutubeDL`). -/
def zeroYoutubeDL {D : Type} (env : Env D) : YoutubeDL D :=
  ⟨[], [], [], env.zeroDuration, []⟩

/-- The lines 61-73: download, conversion chosen by `runtime.GOOS`, removal
of the downloaded file. Every status is discarded. -/
def fetchAndConvert {D : Type} (env : Env D) (st : State) (fileName url : Str) : State :=
  let output := "download/".toList ++ fileName ++ ".m4a".toList
  let st := st.emit (.ytdlDownload output url (env.downloadOk st.trace output url))
  let st :=
    if env.goos = "linux".toList then
      st.emit (.genSh fileName (fileName ++ ".m4a".toList) (env.convertOk st.trace fileName))
    else if env.goos = "windows".toList then
      st.emit (.genBat fileName (fileName ++ ".m4a".toList) (env.convertOk st.trace fileName))
    else st
  st.emit (.remove ("./download/".toList ++ fileName ++ ".m4a".toList))

/-- The body of the loop `for _, singleJson := range strOut` (lines 42-79).
`n` is `len(strOut)`; the pair carries the state and the variable `ytdl`,
which is declared outside the loop and so keeps its value from one
iteration to the next. -/
def loopBody {D : Type} (env : Env D) (guildID channelID link user txtChannel : Str)
    (n : Nat) (acc : State × YoutubeDL D) (singleJson : Str) : State × YoutubeDL D :=
  let st := acc.1
  let ytdl := env.unmarshal singleJson acc.2
  let fileName := ytdl.ID ++ "-".toList ++ ytdl.Extractor
  let el : Queue := ⟨ytdl.Title, env.formatDuration ytdl.Duration, fileName, ytdl.WebpageURL, user⟩
  let path := "./audio_cache/".toList ++ fileName ++ ".dca".toList
  let err := env.statErr st.trace path
  let st := st.emit (.stat path)
  let st := st.emit (.addToDb el)
  let el := if n = 1 then { el with link := link } else el
  let st := if n = 1 then st.emit (.addToDb el) else st
  let st := if err then fetchAndConvert env st fileName ytdl.WebpageURL else st
  let st := st.enqueue guildID el
  let st := st.emit (.playSound guildID channelID (fileName ++ ".dca".toList) txtChannel)
  (st, ytdl)

/-- The lines of the extractor's output that the loop ranges over:
`strings.Split(strings.TrimSuffix(string(out), "\n"), "\n")`, shuffled when
`random` is set. `st` is the state right after the extractor has run. -/
def outputLines {D : Type} (env : Env D) (st : State) (out : Str) (random : Bool) : List Str :=
  let strOut := Split (TrimSuffix out "\n".toList) '\n'
  if random then env.shuffle st.trace strOut else strOut

/-- The function `downloadAndPlay` of src/download.go. -/
def downloadAndPlay {D : Type} (env : Env D) (st : State)
    (guildID channelID link user txtChannel : Str) (random : Bool) : State :=
  let st := st.emit (.sendEmbed txtChannel link)
  let el := env.checkInDb st.trace link
  if el.title ≠ [] then
    let el := { el with user := user }
    let st := st.enqueue guildID el
    st.emit (.playSound guildID channelID (el.id ++ ".dca".toList) txtChannel)
  else
    let out := env.ytdlOutput st.trace link
    let st := st.emit (.ytdlInfo link)
    let strOut := outputLines env st out random
    (strOut.foldl (loopBody env guildID channelID link user txtChannel strOut.length)
      (st, zeroYoutubeDL env)).1

/-! ## `spotifyPlaylist` (src/download.go) -/

/-- How a call ended: it returned, or it stopped with the run-time panic
`index out of range` (which, not being recovered, ends the process). -/
inductive Outcome where
  | returned
  | panicIndexOutOfRange
deriving DecidableEq, Repr

/-- The loop `for _, track := range playlist.Tracks.Tracks` (lines 107-109):
the arguments of the `go` statement, `track.Track.Artists[0]` among them,
are evaluated before the goroutine is launched. -/
def spotifyLoop (guildID channelID user txtChannel : Str) (random : Bool) :
    List Track → State → State × Outcome
  | [], st => (st, .returned)
  | track :: rest, st =>
    match track.Artists with
    | [] => (st, .panicIndexOutOfRange)
    | artist :: _ =>
      spotifyLoop guildID channelID user txtChannel random rest
        (st.emit (.goSearch guildID channelID (track.Name ++ " - ".toList ++ artist)
          user txtChannel random))

/-- The function `spotifyPlaylist` of src/download.go. -/
def spotifyPlaylist {D : Type} (env : Env D) (st : State)
    (guildID channelID user playlistId txtChannel : Str) (random : Bool) : State × Outcome :=
  let id := TrimPrefix playlistId "spotify:playlist:".toList
  let playlist := env.getPlaylist st.trace id
  let st := st.emit (.getPlaylist id)
  match playlist with
  | none => (st.emit .printErr, .returned)
  | some tracks => spotifyLoop guildID channelID user txtChannel random tracks st

/-! ## `messageCreate` (src/main.go) -/

/-- The fields of `discordgo.MessageCreate` that `messageCreate` reads. -/
structure Message where
  Content : Str
  AuthorID : Str
  AuthorUsername : Str
  GuildID : Str
  ChannelID : Str
deriving DecidableEq, Repr

/-- What `messageCreate` needs besides the message: the configured
`Prefix`, the bot's own user id, and the helpers whose bodies are in other
files of the repository. -/
structure Config where
  /-- The package-level `Prefix`. -/
  Prefix : Str
  /-- `s.State.User.ID`. -/
  selfID : Str
  /-- `isValidUrl` (body in another file). -/
  isValidUrl : Str → Bool
  /-- `findUserVoiceState(s, m)` (body in another file). -/
  findUserVoiceState : Message → Str
  /-- `unicode.ToLower` outside ASCII. -/
  lowerNonASCII : Char → Char

/-- What `messageCreate` does with a message: the call it makes, with the
arguments it passes. -/
inductive Action where
  /-- The author is the bot itself: return at once. -/
  | ignored
  /-- No `case` of the switch matches. -/
  | noCommand
  | downloadAndPlay (guildID channelID link user txtChannel : Str)
  | spotifyPlaylist (guildID channelID user playlistId txtChannel : Str)
  | searchDownloadAndPlay (guildID channelID query user txtChannel : Str)
  | skip (guildID : Str)
  | clear
  /-- The `queue` command, with the text of the field it sends. -/
  | queue (message : Str)
  | disconnect (guildID : Str)
  | summon (guildID channelID : Str)
  | help
deriving DecidableEq, Repr

/-- The loop of the `queue` command (lines 158-176): `i` is the index of the
first entry of the list, `message` the text built so far. -/
def queueLoop : Nat → List Queue → Str → Str
  | _, [], message => message
  | i, el :: rest, message =>
    if i = 0 then
      if el.title ≠ [] then
        queueLoop (i + 1) rest
          (message ++ ("Currently playing: ".toList ++ el.title ++ " - ".toList ++ el.duration
            ++ " added by ".toList ++ el.user ++ "\n\n".toList))
      else
        queueLoop (i + 1) rest (message ++ "Currently playing: Getting info...\n\n".toList)
    else if el.title = [] then
      queueLoop (i + 1) rest (message ++ (Itoa i ++ ") Getting info...\n".toList))
    else
      queueLoop (i + 1) rest
        (message ++ (Itoa i ++ ") ".toList ++ el.title ++ " - ".toList ++ el.duration
          ++ " by ".toList ++ el.user ++ "\n".toList))

/-- The text the `queue` command builds for a guild's queue
(`var message string`, then the loop). -/
def queueMessage (q : List Queue) : Str := queueLoop 0 q []

/-- The classification of `link` in the play branch (lines 129-137): a
valid URL goes to `downloadAndPlay`, a Spotify playlist reference to
`spotifyPlaylist`, anything else to `searchDownloadAndPlay`. -/
def resolveLink (cfg : Config) (m : Message) (link : Str) : Action :=
  if cfg.isValidUrl link then
    .downloadAndPlay m.GuildID (cfg.findUserVoiceState m) link m.AuthorUsername m.ChannelID
  else if HasPrefix link "spotify:playlist:".toList then
    .spotifyPlaylist m.GuildID (cfg.findUserVoiceState m) m.AuthorUsername
      (TrimPrefix m.Content (cfg.Prefix ++ "spotify ".toList)) m.ChannelID
  else
    .searchDownloadAndPlay m.GuildID (cfg.findUserVoiceState m) link m.AuthorUsername m.ChannelID

/-- The variable `link` of the play branch (lines 126-127): the content
with `Prefix+"play "` trimmed, and then with `Prefix+"p "` trimmed. -/
def playLink (cfg : Config) (m : Message) : Str :=
  TrimPrefix (TrimPrefix m.Content (cfg.Prefix ++ "play ".toList)) (cfg.Prefix ++ "p ".toList)

/-- The play branch of the switch (lines 124-137). -/
def playBranch (cfg : Config) (m : Message) : Action :=
  resolveLink cfg m (playLink cfg m)

/-- The expression the switch of `messageCreate` is on:
`strings.Split(strings.ToLower(m.Content), " ")[0]`. -/
def commandWord (cfg : Config) (m : Message) : Str :=
  (Split (ToLower cfg.lowerNonASCII m.Content) ' ').headD []

/-- The function `messageCreate` of src/main.go: the first `case` whose
list holds the command word is taken. The result is the call the branch
makes (the calls of the play branch are written in main.go without the
parameter `random` of download.go). -/
def messageCreate (cfg : Config) (queue : Str → List Queue) (m : Message) : Action :=
  if cfg.selfID = m.AuthorID then .ignored
  else
    let w := commandWord cfg m
    if w = cfg.Prefix ++ "play".toList ∨ w = cfg.Prefix ++ "p".toList then playBranch cfg m
    else if w = cfg.Prefix ++ "skip".toList ∨ w = cfg.Prefix ++ "s".toList then .skip m.GuildID
    else if w = cfg.Prefix ++ "clear".toList ∨ w = cfg.Prefix ++ "c".toList then .clear
    else if w = cfg.Prefix ++ "queue".toList ∨ w = cfg.Prefix ++ "q".toList then
      .queue (queueMessage (queue m.GuildID))
    else if w = cfg.Prefix ++ "disconnect".toList ∨ w = cfg.Prefix ++ "d".toList then
      .disconnect m.GuildID
    else if w = cfg.Prefix ++ "summon".toList then .summon m.GuildID (cfg.findUserVoiceState m)
    else if w = cfg.Prefix ++ "help".toList ∨ w = cfg.Prefix ++ "h".toList then .help
    else .noCommand

/-! ## Vocabulary of the statements -/

/-- The value of `ytdl` in each iteration of the loop over `lines`, when it
holds `z` before the first iteration. -/
def decodeAll {D : Type} (env : Env D) : List Str → YoutubeDL D → List (YoutubeDL D)
  | [], _ => []
  | line :: rest, z => env.unmarshal line z :: decodeAll env rest (env.unmarshal line z)

/-- The line `line` is a complete, valid record `r`: decoding it sets
every field of the target, whatever the target held before. -/
def Decodes {D : Type} (env : Env D) (line : Str) (r : YoutubeDL D) : Prop :=
  ∀ prev, env.unmarshal line prev = r

/-- The descriptor of a record: keyed by `ID + "-" + Extractor`, with the
record's canonical webpage URL as its link. -/
def descriptor {D : Type} (env : Env D) (user : Str) (y : YoutubeDL D) : Queue :=
  ⟨y.Title, env.formatDuration y.Duration, y.ID ++ "-".toList ++ y.Extractor, y.WebpageURL, user⟩

/-- The descriptor of a record with the request link in place of its own. -/
def linkedDescriptor {D : Type} (env : Env D) (link user : Str) (y : YoutubeDL D) : Queue :=
  { descriptor env user y with link := link }

/-- The entry the loop appends to the queue for a record when the output
has `n` lines: its link is the request link when `n = 1`. -/
def enqueued {D : Type} (env : Env D) (link user : Str) (n : Nat) (y : YoutubeDL D) : Queue :=
  if n = 1 then linkedDescriptor env link user y else descriptor env user y

/-- The entry `checkInDb(link)` returns in a call of `downloadAndPlay` that
starts in state `st` (the lookup follows the launch of the announcement). -/
def cacheLookup {D : Type} (env : Env D) (st : State) (link txtChannel : Str) : Queue :=
  env.checkInDb (st.trace ++ [Event.sendEmbed txtChannel link]) link

/-- The lines `strOut` the loop of `downloadAndPlay` ranges over in a call
that starts in state `st` and misses the cache. -/
def extractorLines {D : Type} (env : Env D) (st : State) (link txtChannel : Str)
    (random : Bool) : List Str :=
  outputLines env ((st.emit (.sendEmbed txtChannel link)).emit (.ytdlInfo link))
    (env.ytdlOutput (st.trace ++ [Event.sendEmbed txtChannel link]) link) random

/-- The entry an `addToDb` event records. -/
def Event.recorded : Event → Option Queue
  | .addToDb el => some el
  | _ => none

/-- A launch of the playback goroutine. -/
def Event.isPlaySound : Event → Bool
  | .playSound _ _ _ _ => true
  | _ => false

/-- A call of the external metadata extraction. -/
def Event.isExtract : Event → Bool
  | .ytdlInfo _ => true
  | _ => false

/-- A call of the external download or of a conversion script. -/
def Event.isFetchOrConvert : Event → Bool
  | .ytdlDownload _ _ _ => true
  | .genSh _ _ _ => true
  | .genBat _ _ _ => true
  | _ => false

/-- Every download in the trace comes after an `addToDb` of the entry whose
id names the downloaded file (`seen`: the ids recorded before the trace). -/
def recordedBeforeFetch : List Str → List Event → Bool
  | _, [] => true
  | seen, .addToDb el :: rest => recordedBeforeFetch (el.id :: seen) rest
  | seen, .ytdlDownload output _ _ :: rest =>
    seen.any (fun id => output = "download/".toList ++ id ++ ".m4a".toList)
      && recordedBeforeFetch seen rest
  | seen, _ :: rest => recordedBeforeFetch seen rest

/-- What one iteration of the loop adds to the trace, `d` being the
descriptor of the line and `d1` the same under the request link: the
recorded entries, one playback launch, no extraction, and every download
after the record of its entry. -/
structure BodyTrace (n : Nat) (d d1 : Queue) (new : List Event) : Prop where
  recorded : new.filterMap Event.recorded = if n = 1 then [d, d1] else [d]
  plays : new.countP Event.isPlaySound = 1
  extracts : new.countP Event.isExtract = 0
  ordered : ∀ seen, recordedBeforeFetch seen new = true

/-- What the whole loop adds to the trace, `ys` being the values of `ytdl`
in its iterations. -/
structure LoopTrace {D : Type} (env : Env D) (link user : Str) (n : Nat)
    (ys : List (YoutubeDL D)) (new : List Event) : Prop where
  recorded : new.filterMap Event.recorded =
    ys.flatMap (fun y => if n = 1 then
      [descriptor env user y, linkedDescriptor env link user y]
      else [descriptor env user y])
  plays : new.countP Event.isPlaySound = ys.length
  extracts : new.countP Event.isExtract = 0
  ordered : ∀ seen, recordedBeforeFetch seen new = true

/-- The text `out` printed by the extractor consists of the lines `lines`,
none of which holds a newline, separated by newlines, with or without a
newline after the last one. -/
def PrintsLines (out : Str) (lines : List Str) : Prop :=
  lines ≠ [] ∧ (∀ l ∈ lines, '\n' ∉ l) ∧
  (out = List.intercalate ['\n'] lines ++ ['\n'] ∨
    (out = List.intercalate ['\n'] lines ∧ out.getLast? ≠ some '\n'))

/-- The newly resolved entries of a call of `downloadAndPlay` from state
`st` without shuffling: the cached entry under the requesting user on a
hit; on a miss, when the extractor prints the lines `lines`, one entry per
line, in the order in which the lines are printed, built from the value
`ytdl` holds after that line is decoded; so for lines that are the valid
records `records` the entries of those records, in their order. -/
def Resolved {D : Type} (env : Env D) (st : State) (link user txtChannel : Str)
    (new : List Queue) : Prop :=
  ((cacheLookup env st link txtChannel).title ≠ [] →
    new = [{ cacheLookup env st link txtChannel with user := user }]) ∧
  ((cacheLookup env st link txtChannel).title = [] →
    ∀ lines,
      PrintsLines (env.ytdlOutput (st.trace ++ [Event.sendEmbed txtChannel link]) link) lines →
      new = (decodeAll env lines (zeroYoutubeDL env)).map
        (enqueued env link user lines.length) ∧
      ∀ records, List.Forall₂ (Decodes env) lines records →
        new = records.map (enqueued env link user records.length))

/-- The text of a queue entry after its position, as the specification
words it: the placeholder when the title is empty, else title, duration
and user, the user introduced by `by_`. -/
def entryDetails (el : Queue) (by_ : Str) : Str :=
  if el.title = [] then "Getting info...".toList
  else el.title ++ " - ".toList ++ el.duration ++ by_ ++ el.user

/-- The rendering of the entry at index `i`, as the specification words it:
entry 0 after "Currently playing: " and followed by a blank line, every
later entry after its index and a bracket, on a line of its own. -/
def renderEntry (i : Nat) (el : Queue) : Str :=
  if i = 0 then "Currently playing: ".toList ++ entryDetails el " added by ".toList ++ "\n\n".toList
  else Itoa i ++ ") ".toList ++ entryDetails el " by ".toList ++ "\n".toList

/-! ## A concrete world for the examples -/

/-- The line of extractor output for song A. -/
def lineA : Str :=
  ("\x7b\"id\": \"a1\", \"extractor\": \"youtube\", \"title\": \"Song A\", " ++
    "\"duration\": 61, \"webpage_url\": \"https://y.t/watch?v=a1\"\x7d").toList

/-- The line of extractor output for song B. -/
def lineB : Str :=
  ("\x7b\"id\": \"b2\", \"extractor\": \"youtube\", \"title\": \"Song B\", " ++
    "\"duration\": 62, \"webpage_url\": \"https://y.t/watch?v=b2\"\x7d").toList

/-- The line of extractor output for song C. -/
def lineC : Str :=
  ("\x7b\"id\": \"c3\", \"extractor\": \"youtube\", \"title\": \"Song C\", " ++
    "\"duration\": 63, \"webpage_url\": \"https://y.t/watch?v=c3\"\x7d").toList

/-- The record of song A. -/
def recA : YoutubeDL Nat :=
  ⟨"a1".toList, "youtube".toList, "Song A".toList, 61, "https://y.t/watch?v=a1".toList⟩

/-- The record of song B. -/
def recB : YoutubeDL Nat :=
  ⟨"b2".toList, "youtube".toList, "Song B".toList, 62, "https://y.t/watch?v=b2".toList⟩

/-- The record of song C. -/
def recC : YoutubeDL Nat :=
  ⟨"c3".toList, "youtube".toList, "Song C".toList, 63, "https://y.t/watch?v=c3".toList⟩

/-- A decoder that knows the three lines and, like `json.Unmarshal` on a
text that is not JSON, leaves the target as it was on any other line. -/
def demoUnmarshal (line : Str) (prev : YoutubeDL Nat) : YoutubeDL Nat :=
  if line = lineA then recA
  else if line = lineB then recB
  else if line = lineC then recC
  else prev

/-- A world in which one link is cached, three links resolve to one record
each, one link is a playlist of two records, one link yields a record
followed by a line that is no record, the extractor prints nothing for any
other link, no converted file is on disk and every download and conversion
fails. Durations are shown as minutes, a colon and seconds. -/
def demoEnv : Env Nat where
  checkInDb := fun _ link =>
    if link = "https://y.t/cached".toList then
      ⟨"Cached Song".toList, "1:01".toList, "k9-youtube".toList, link, "first".toList⟩
    else ⟨[], [], [], [], []⟩
  ytdlOutput := fun _ link =>
    if link = "https://y.t/a1".toList then lineA ++ "\n".toList
    else if link = "https://y.t/b2".toList then lineB ++ "\n".toList
    else if link = "https://y.t/c3".toList then lineC ++ "\n".toList
    else if link = "https://y.t/list".toList then lineA ++ "\n".toList ++ lineB ++ "\n".toList
    else if link = "https://y.t/half".toList then lineA ++ "\nERROR\n".toList
    else []
  shuffle := fun _ xs => xs.reverse
  unmarshal := demoUnmarshal
  formatDuration := fun d => Itoa (d / 60) ++ ":".toList ++ Itoa (d % 60)
  zeroDuration := 0
  statErr := fun _ _ => true
  downloadOk := fun _ _ _ => false
  convertOk := fun _ _ => false
  goos := "linux".toList
  getPlaylist := fun _ id =>
    if id = "pl1".toList then
      some [⟨"Song".toList, ["Artist".toList]⟩, ⟨"Local file".toList, []⟩,
        ⟨"Third".toList, ["Band".toList]⟩]
    else none

/-- The state of a bot that has just started: no queue, no effect yet. -/
def emptyState : State := ⟨fun _ => [], []⟩

/-- A configuration with the default prefix `!`; a link counts as a URL
when it starts with `http://` or `https://`. -/
def demoConfig : Config where
  Prefix := "!".toList
  selfID := "bot".toList
  isValidUrl := fun s => HasPrefix s "http://".toList || HasPrefix s "https://".toList
  findUserVoiceState := fun _ => "voice".toList
  lowerNonASCII := fun c => c

/-- A message of user `ann` in guild `g1`, text channel `txt`. -/
def demoMessage (content : Str) : Message :=
  ⟨content, "u1".toList, "ann".toList, "g1".toList, "txt".toList⟩

/-- The value of `ytdl` after one iteration is the decoded line. -/
theorem loopBody_snd {D : Type} (env : Env D) (g ch link user txt : Str) (n : Nat)
    (st : State) (z : YoutubeDL D) (line : Str) :
    (loopBody env g ch link user txt n (st, z) line).2 = env.unmarshal line z := rfl

/-- Download and conversion do not touch the queues. -/
theorem fetchAndConvert_queue {D : Type} (env : Env D) (st : State) (f u : Str) :
    (fetchAndConvert env st f u).queue = st.queue := by
  unfold fetchAndConvert
  simp only [State.emit]
  split_ifs <;> rfl

/-- One iteration appends one entry to the queue of the guild and touches
no other queue. -/
theorem loopBody_queue {D : Type} (env : Env D) (g ch link user txt : Str) (n : Nat)
    (st : State) (z : YoutubeDL D) (line : Str) :
    (loopBody env g ch link user txt n (st, z) line).1.queue =
      fun g' => if g' = g then st.queue g ++ [enqueued env link user n (env.unmarshal line z)]
        else st.queue g' := by
  unfold loopBody
  simp only [State.emit, State.enqueue, enqueued, descriptor, linkedDescriptor]
  split_ifs <;> simp [fetchAndConvert_queue]

/-- The ordering check passes on a concatenation when it passes on the
first part and, from any start, on the second. -/
theorem recordedBeforeFetch_append (a b : List Event) :
    ∀ seen : List Str, recordedBeforeFetch seen a = true →
      (∀ s, recordedBeforeFetch s b = true) → recordedBeforeFetch seen (a ++ b) = true := by
  induction a with
  | nil => intro seen _ hb; exact hb seen
  | cons e rest ih =>
    intro seen h hb
    cases e <;> simp only [recordedBeforeFetch, Bool.and_eq_true, List.cons_append] at h ⊢
    case ytdlDownload o u ok => exact ⟨h.1, ih _ h.2 hb⟩
    all_goals exact ih _ h hb

/-- The events of download and conversion: the download first, and after it
no record, no playback launch and no extraction. -/
theorem fetchAndConvert_trace {D : Type} (env : Env D) (st : State) (f u : Str) :
    ∃ ok conv,
      (fetchAndConvert env st f u).trace =
        st.trace ++ (Event.ytdlDownload ("download/".toList ++ f ++ ".m4a".toList) u ok :: conv) ∧
      conv.filterMap Event.recorded = [] ∧ conv.countP Event.isPlaySound = 0 ∧
      conv.countP Event.isExtract = 0 ∧ ∀ seen, recordedBeforeFetch seen conv = true := by
  unfold fetchAndConvert
  simp only [State.emit]
  split_ifs
  · simp only [List.append_assoc]
    exact ⟨_, _, rfl, by simp [Event.recorded], by simp [Event.isPlaySound],
      by simp [Event.isExtract], fun _ => by simp [recordedBeforeFetch]⟩
  · simp only [List.append_assoc]
    exact ⟨_, _, rfl, by simp [Event.recorded], by simp [Event.isPlaySound],
      by simp [Event.isExtract], fun _ => by simp [recordedBeforeFetch]⟩
  · simp only [List.append_assoc]
    exact ⟨_, _, rfl, by simp [Event.recorded], by simp [Event.isPlaySound],
      by simp [Event.isExtract], fun _ => by simp [recordedBeforeFetch]⟩

/-- The events of one iteration. -/
theorem loopBody_trace {D : Type} (env : Env D) (g ch link user txt : Str) (n : Nat)
    (st : State) (z : YoutubeDL D) (line : Str) :
    ∃ new, (loopBody env g ch link user txt n (st, z) line).1.trace = st.trace ++ new ∧
      BodyTrace n (descriptor env user (env.unmarshal line z))
        (linkedDescriptor env link user (env.unmarshal line z)) new := by
  unfold loopBody
  simp only [State.emit, State.enqueue]
  generalize env.unmarshal line z = y
  generalize env.statErr _ _ = err
  cases err <;> by_cases hn : n = 1
  · simp only [hn, if_true, Bool.false_eq_true, if_false, List.append_assoc]
    exact ⟨_, rfl, by simp [Event.recorded, descriptor, linkedDescriptor],
      by simp [Event.isPlaySound], by simp [Event.isExtract],
      fun _ => by simp [recordedBeforeFetch]⟩
  · simp only [hn, if_false, Bool.false_eq_true, List.append_assoc]
    exact ⟨_, rfl, by simp [Event.recorded, descriptor, hn], by simp [Event.isPlaySound],
      by simp [Event.isExtract], fun _ => by simp [recordedBeforeFetch]⟩
  · simp only [hn, if_true]
    obtain ⟨ok, conv, htr, h1, h2, h3, h4⟩ := fetchAndConvert_trace env
      { queue := st.queue,
        trace := st.trace
          ++ [Event.stat ("./audio_cache/".toList ++ (y.ID ++ "-".toList ++ y.Extractor)
            ++ ".dca".toList)]
          ++ [Event.addToDb (descriptor env user y)]
          ++ [Event.addToDb { descriptor env user y with link := link }] }
      (y.ID ++ "-".toList ++ y.Extractor) y.WebpageURL
    simp only [descriptor] at htr
    rw [htr]
    simp only [List.append_assoc]
    refine ⟨_, rfl, ?_, ?_, ?_, ?_⟩
    · simp [Event.recorded, descriptor, linkedDescriptor, h1]
    · simp [Event.isPlaySound, h2, List.countP_cons, List.countP_append]
    · simp [Event.isExtract, h3, List.countP_cons, List.countP_append]
    · intro seen
      simp [recordedBeforeFetch, descriptor]
      refine recordedBeforeFetch_append _ _ _ (h4 _) ?_
      intro s
      rfl
  · simp only [hn, if_true, if_false]
    obtain ⟨ok, conv, htr, h1, h2, h3, h4⟩ := fetchAndConvert_trace env
      { queue := st.queue,
        trace := st.trace
          ++ [Event.stat ("./audio_cache/".toList ++ (y.ID ++ "-".toList ++ y.Extractor)
            ++ ".dca".toList)]
          ++ [Event.addToDb (descriptor env user y)] }
      (y.ID ++ "-".toList ++ y.Extractor) y.WebpageURL
    simp only [descriptor] at htr
    rw [htr]
    simp only [List.append_assoc]
    refine ⟨_, rfl, ?_, ?_, ?_, ?_⟩
    · simp [Event.recorded, descriptor, h1, hn]
    · simp [Event.isPlaySound, h2, List.countP_cons, List.countP_append]
    · simp [Event.isExtract, h3, List.countP_cons, List.countP_append]
    · intro seen
      simp [recordedBeforeFetch, descriptor]
      refine recordedBeforeFetch_append _ _ _ (h4 _) ?_
      intro s
      rfl

/-- The queue entries the loop appends for `lines`. -/
theorem loop_queue {D : Type} (env : Env D) (g ch link user txt : Str) (n : Nat)
    (lines : List Str) : ∀ (st : State) (z : YoutubeDL D),
    (lines.foldl (loopBody env g ch link user txt n) (st, z)).1.queue =
      fun g1 => if g1 = g then st.queue g ++ (decodeAll env lines z).map (enqueued env link user n)
        else st.queue g1 := by
  induction lines with
  | nil =>
    intro st z
    funext g1
    by_cases hg : g1 = g <;> simp [decodeAll, hg]
  | cons line rest ih =>
    intro st z
    rw [List.foldl_cons]
    have hb := loopBody_queue env g ch link user txt n st z line
    have hs := loopBody_snd env g ch link user txt n st z line
    generalize loopBody env g ch link user txt n (st, z) line = r at hb hs
    obtain ⟨st1, z1⟩ := r
    simp only at hb hs
    subst hs
    rw [ih, hb]
    funext g1
    by_cases hg : g1 = g
    · simp [hg, decodeAll]
    · simp [hg]

/-- The events of the whole loop. -/
theorem loop_trace {D : Type} (env : Env D) (g ch link user txt : Str) (n : Nat)
    (lines : List Str) : ∀ (st : State) (z : YoutubeDL D),
    ∃ new, (lines.foldl (loopBody env g ch link user txt n) (st, z)).1.trace = st.trace ++ new ∧
      LoopTrace env link user n (decodeAll env lines z) new := by
  induction lines with
  | nil =>
    intro st z
    exact ⟨[], by simp, by simp [decodeAll], by simp [decodeAll], by simp, fun _ => rfl⟩
  | cons line rest ih =>
    intro st z
    rw [List.foldl_cons]
    obtain ⟨new1, h1, b1⟩ := loopBody_trace env g ch link user txt n st z line
    have hs := loopBody_snd env g ch link user txt n st z line
    generalize loopBody env g ch link user txt n (st, z) line = r at h1 hs
    obtain ⟨st1, z1⟩ := r
    simp only at h1 hs
    subst hs
    obtain ⟨new2, h2, b2⟩ := ih st1 (env.unmarshal line z)
    refine ⟨new1 ++ new2, by rw [h2, h1, List.append_assoc], ?_, ?_, ?_, ?_⟩
    · rw [List.filterMap_append, b1.recorded, b2.recorded]
      simp only [decodeAll, List.flatMap_cons]
    · rw [List.countP_append, b1.plays, b2.plays]
      simp [decodeAll, Nat.add_comm]
    · rw [List.countP_append, b1.extracts, b2.extracts]
    · intro seen
      exact recordedBeforeFetch_append _ _ _ (b1.ordered seen) b2.ordered

/-- One value of `ytdl` per line. -/
theorem decodeAll_length {D : Type} (env : Env D) (lines : List Str) :
    ∀ z : YoutubeDL D, (decodeAll env lines z).length = lines.length := by
  induction lines with
  | nil => intro z; rfl
  | cons line rest ih => intro z; simp [decodeAll, ih]

/-- When the lines are the valid records `records`, these are the values
of `ytdl` in the iterations. -/
theorem decodeAll_of_decodes {D : Type} (env : Env D) (lines : List Str)
    (records : List (YoutubeDL D)) (h : List.Forall₂ (Decodes env) lines records) :
    ∀ z, decodeAll env lines z = records := by
  induction h with
  | nil => intro z; rfl
  | cons hd _ ih => intro z; simp only [decodeAll, hd z, ih]

/-- At a line that is a valid record, `ytdl` holds that record, whatever
the lines before it were. -/
theorem decodeAll_getElem? {D : Type} (env : Env D) (lines : List Str) :
    ∀ (z : YoutubeDL D) (i : Nat) (line : Str) (r : YoutubeDL D),
      lines[i]? = some line → Decodes env line r → (decodeAll env lines z)[i]? = some r := by
  induction lines with
  | nil => intro z i line r h _; simp at h
  | cons l rest ih =>
    intro z i line r h hd
    cases i with
    | zero =>
      simp only [List.getElem?_cons_zero, Option.some.injEq] at h
      subst h
      simp [decodeAll, hd z]
    | succ j =>
      simp only [List.getElem?_cons_succ] at h
      simpa [decodeAll] using ih _ j line r h hd

/-- On a cache hit `downloadAndPlay` announces, enqueues the cached entry
under the requesting user and launches its playback. -/
theorem downloadAndPlay_hit {D : Type} (env : Env D) (st : State)
    (g ch link user txt : Str) (random : Bool)
    (hit : (cacheLookup env st link txt).title ≠ []) :
    downloadAndPlay env st g ch link user txt random =
      (((st.emit (.sendEmbed txt link)).enqueue g
        { cacheLookup env st link txt with user := user }).emit
        (.playSound g ch ((cacheLookup env st link txt).id ++ ".dca".toList) txt)) := by
  unfold cacheLookup at hit
  simp only [downloadAndPlay, State.emit, cacheLookup]
  rw [if_pos hit]

/-- On a cache miss `downloadAndPlay` runs the extractor and then the loop
over the lines of its output. -/
theorem downloadAndPlay_miss {D : Type} (env : Env D) (st : State)
    (g ch link user txt : Str) (random : Bool)
    (miss : (cacheLookup env st link txt).title = []) :
    downloadAndPlay env st g ch link user txt random =
      ((extractorLines env st link txt random).foldl
        (loopBody env g ch link user txt (extractorLines env st link txt random).length)
        ((st.emit (.sendEmbed txt link)).emit (.ytdlInfo link), zeroYoutubeDL env)).1 := by
  unfold cacheLookup at miss
  simp only [downloadAndPlay, State.emit, extractorLines]
  rw [if_neg (by simpa using miss)]

/-- The queue after a call that misses the cache. -/
theorem downloadAndPlay_miss_queue {D : Type} (env : Env D) (st : State)
    (g ch link user txt : Str) (random : Bool)
    (miss : (cacheLookup env st link txt).title = []) :
    (downloadAndPlay env st g ch link user txt random).queue =
      fun g1 => if g1 = g then st.queue g ++
        (decodeAll env (extractorLines env st link txt random) (zeroYoutubeDL env)).map
          (enqueued env link user (extractorLines env st link txt random).length)
        else st.queue g1 := by
  rw [downloadAndPlay_miss env st g ch link user txt random miss, loop_queue]
  rfl

/-- The trace after a call that misses the cache. -/
theorem downloadAndPlay_miss_trace {D : Type} (env : Env D) (st : State)
    (g ch link user txt : Str) (random : Bool)
    (miss : (cacheLookup env st link txt).title = []) :
    ∃ new, (downloadAndPlay env st g ch link user txt random).trace =
        st.trace ++ (Event.sendEmbed txt link :: Event.ytdlInfo link :: new) ∧
      LoopTrace env link user (extractorLines env st link txt random).length
        (decodeAll env (extractorLines env st link txt random) (zeroYoutubeDL env)) new := by
  rw [downloadAndPlay_miss env st g ch link user txt random miss]
  obtain ⟨new, h, hl⟩ := loop_trace env g ch link user txt
    (extractorLines env st link txt random).length (extractorLines env st link txt random)
    ((st.emit (.sendEmbed txt link)).emit (.ytdlInfo link)) (zeroYoutubeDL env)
  refine ⟨new, ?_, hl⟩
  rw [h]
  simp [State.emit]

/-- Joining two or more lines: the first, the separator, the rest joined. -/
theorem intercalate_cons_cons (sep a b : Str) (l : List Str) :
    List.intercalate sep (a :: b :: l) = a ++ sep ++ List.intercalate sep (b :: l) := by
  simp [List.intercalate, List.intersperse]

/-- Joining one line gives the line. -/
theorem intercalate_single (sep a : Str) : List.intercalate sep [a] = a := by
  simp [List.intercalate, List.intersperse]

/-- A text without the separator splits into itself. -/
theorem Split_of_not_mem (sep : Char) : ∀ l : Str, sep ∉ l → Split l sep = [l] := by
  intro l
  induction l with
  | nil => intro _; rfl
  | cons c l ih =>
    intro h
    have hc : c ≠ sep := fun e => h (e ▸ List.mem_cons_self _ _)
    rw [Split, if_neg hc, ih (fun hm => h (List.mem_cons_of_mem _ hm))]

/-- Splitting a text at its first separator. -/
theorem Split_line (sep : Char) (rest : Str) :
    ∀ l : Str, sep ∉ l → Split (l ++ sep :: rest) sep = l :: Split rest sep := by
  intro l
  induction l with
  | nil => intro _; simp [Split]
  | cons c l ih =>
    intro h
    have hc : c ≠ sep := fun e => h (e ▸ List.mem_cons_self _ _)
    rw [List.cons_append, Split, if_neg hc, ih (fun hm => h (List.mem_cons_of_mem _ hm))]

/-- Splitting the joined lines gives the lines back, in their order. -/
theorem Split_intercalate (sep : Char) : ∀ lines : List Str, lines ≠ [] →
    (∀ l ∈ lines, sep ∉ l) → Split (List.intercalate [sep] lines) sep = lines := by
  intro lines
  induction lines with
  | nil => intro h; exact absurd rfl h
  | cons a rest ih =>
    intro _ hall
    cases rest with
    | nil => rw [intercalate_single]; exact Split_of_not_mem sep a (hall a (List.mem_cons_self _ _))
    | cons b rest =>
      rw [intercalate_cons_cons, List.append_assoc, List.singleton_append,
        Split_line sep _ a (hall a (List.mem_cons_self _ _)),
        ih (List.cons_ne_nil _ _) (fun l hl => hall l (List.mem_cons_of_mem _ hl))]

/-- Trimming `suf` from `s ++ suf` leaves `s`. -/
theorem TrimSuffix_append (s suf : Str) : TrimSuffix (s ++ suf) suf = s := by
  have h : HasSuffix (s ++ suf) suf = true := by
    simp only [HasSuffix]
    rw [List.isSuffixOf_iff_suffix]
    exact List.suffix_append s suf
  simp [TrimSuffix, h]

/-- A text that does not end in a newline is not trimmed. -/
theorem TrimSuffix_newline_of_getLast? (s : Str) (h : s.getLast? ≠ some '\n') :
    TrimSuffix s ['\n'] = s := by
  have hs : HasSuffix s ['\n'] = false := by
    simp only [HasSuffix]
    rw [Bool.eq_false_iff]
    intro hsuf
    rw [List.isSuffixOf_iff_suffix] at hsuf
    obtain ⟨t, rfl⟩ := hsuf
    exact h (by simp)
  simp [TrimSuffix, hs]

/-- A split has at least one field. -/
theorem Split_ne_nil (sep : Char) : ∀ s : Str, Split s sep ≠ [] := by
  intro s
  induction s with
  | nil => simp [Split]
  | cons c cs ih =>
    rw [Split]
    split_ifs
    · simp
    · cases h : Split cs sep <;> simp

/-- No field of a split holds the separator. -/
theorem Split_not_mem (sep : Char) : ∀ s : Str, ∀ l ∈ Split s sep, sep ∉ l := by
  intro s
  induction s with
  | nil => intro l hl; simp [Split] at hl; simp [hl]
  | cons c cs ih =>
    intro l hl
    rw [Split] at hl
    split_ifs at hl with hc
    · rcases List.mem_cons.1 hl with rfl | hl
      · simp
      · exact ih l hl
    · cases h : Split cs sep with
      | nil => exact absurd h (Split_ne_nil sep cs)
      | cons w ws =>
        rw [h] at hl ih
        simp only at hl
        rcases List.mem_cons.1 hl with rfl | hl
        · intro hm
          rcases List.mem_cons.1 hm with e | hm
          · exact hc e.symm
          · exact ih w (List.mem_cons_self _ _) hm
        · exact ih l (List.mem_cons_of_mem _ hl)

/-- Joining the fields of a split gives the text back. -/
theorem intercalate_Split (sep : Char) : ∀ s : Str, List.intercalate [sep] (Split s sep) = s := by
  intro s
  induction s with
  | nil => simp [Split, List.intercalate]
  | cons c cs ih =>
    rw [Split]
    split_ifs with hc
    · cases h : Split cs sep with
      | nil => exact absurd h (Split_ne_nil sep cs)
      | cons w ws =>
        rw [h] at ih
        rw [intercalate_cons_cons, ih, hc]
        rfl
    · cases h : Split cs sep with
      | nil => exact absurd h (Split_ne_nil sep cs)
      | cons w ws =>
        rw [h] at ih
        simp only
        cases ws with
        | nil => rw [intercalate_single] at ih ⊢; rw [ih]
        | cons w2 ws =>
          rw [intercalate_cons_cons] at ih ⊢
          rw [← ih]
          simp

/-- Every text consists of lines. -/
theorem printsLines_exists (out : Str) : ∃ lines, PrintsLines out lines := by
  by_cases h : out.getLast? = some '\n'
  · obtain ⟨s, rfl⟩ : ∃ s, out = s ++ ['\n'] := by
      rcases List.eq_nil_or_concat out with rfl | ⟨s, c, rfl⟩
      · simp at h
      · simp at h; exact ⟨s, by simp [h]⟩
    exact ⟨Split s '\n', Split_ne_nil _ _, Split_not_mem _ _, Or.inl (by rw [intercalate_Split])⟩
  · exact ⟨Split out '\n', Split_ne_nil _ _, Split_not_mem _ _,
      Or.inr ⟨by rw [intercalate_Split], h⟩⟩

/-- The lines the program obtains from an output are the lines printed, in
the order in which they are printed. -/
theorem lines_of_printsLines (out : Str) (lines : List Str) (h : PrintsLines out lines) :
    Split (TrimSuffix out ['\n']) '\n' = lines := by
  obtain ⟨hne, hall, h | ⟨h, hlast⟩⟩ := h
  · rw [h, TrimSuffix_append, Split_intercalate _ _ hne hall]
  · rw [TrimSuffix_newline_of_getLast? _ hlast, h, Split_intercalate _ _ hne hall]

/-- Without shuffling, the lines the loop ranges over are the lines the
extractor prints. -/
theorem extractorLines_of_printsLines {D : Type} (env : Env D) (st : State)
    (link txt : Str) (lines : List Str)
    (h : PrintsLines (env.ytdlOutput (st.trace ++ [Event.sendEmbed txt link]) link) lines) :
    extractorLines env st link txt false = lines := by
  simp only [extractorLines, outputLines, Bool.false_eq_true, if_false]
  exact lines_of_printsLines _ _ h

/-- The entries a call appends to the queue of its guild are the newly
resolved entries, and no other queue changes. -/
theorem downloadAndPlay_appends {D : Type} (env : Env D) (st : State)
    (g ch link user txt : Str) :
    (∀ g1, g1 ≠ g → (downloadAndPlay env st g ch link user txt false).queue g1 = st.queue g1) ∧
    ∃ new, (downloadAndPlay env st g ch link user txt false).queue g = st.queue g ++ new ∧
      Resolved env st link user txt new := by
  by_cases hit : (cacheLookup env st link txt).title = []
  · rw [downloadAndPlay_miss_queue env st g ch link user txt false hit]
    refine ⟨fun g1 hg => by simp [hg],
      (decodeAll env (extractorLines env st link txt false) (zeroYoutubeDL env)).map
        (enqueued env link user (extractorLines env st link txt false).length),
      by simp, fun h => absurd hit h, fun _ lines hp => ?_⟩
    rw [extractorLines_of_printsLines env st link txt lines hp]
    refine ⟨rfl, fun records hrec => ?_⟩
    rw [decodeAll_of_decodes env _ records hrec, hrec.length_eq]
  · rw [downloadAndPlay_hit env st g ch link user txt false hit]
    refine ⟨fun g1 hg => by simp [State.emit, State.enqueue, hg],
      [{ cacheLookup env st link txt with user := user }], ?_, fun _ => rfl,
      fun h => absurd h hit⟩
    simp [State.emit, State.enqueue]

/-- Claim C1. When `checkInDb(link)` returns an entry with a non-empty
title, `downloadAndPlay` appends exactly that entry, with its user set to
the requesting user, to the queue of the requesting guild, and the only
effects of the call are the announcement and the launch of the playback
of the cached file: no metadata extraction, no download and no conversion
is run. -/
theorem C1_cache_hit_skips_extraction {D : Type} (env : Env D) (st : State)
    (g ch link user txt : Str) (random : Bool)
    (hit : (cacheLookup env st link txt).title ≠ []) :
    (downloadAndPlay env st g ch link user txt random).queue g =
      st.queue g ++ [{ cacheLookup env st link txt with user := user }] ∧
    (downloadAndPlay env st g ch link user txt random).trace =
      st.trace ++ [Event.sendEmbed txt link,
        Event.playSound g ch ((cacheLookup env st link txt).id ++ ".dca".toList) txt] ∧
    (downloadAndPlay env st g ch link user txt random).trace.countP Event.isExtract =
      st.trace.countP Event.isExtract ∧
    (downloadAndPlay env st g ch link user txt random).trace.countP Event.isFetchOrConvert =
      st.trace.countP Event.isFetchOrConvert := by
  rw [downloadAndPlay_hit env st g ch link user txt random hit]
  refine ⟨by simp [State.emit, State.enqueue], by simp [State.emit, State.enqueue], ?_, ?_⟩
  · simp [State.emit, State.enqueue, List.countP_append, List.countP_cons, Event.isExtract]
  · simp [State.emit, State.enqueue, List.countP_append, List.countP_cons,
      Event.isFetchOrConvert]

/-- Claim C1 on the cached link of the example world: the queue of `g1`
gets the cached entry under user `ann`, and the trace holds the
announcement and the playback launch only. -/
theorem C1_cache_hit_witness :
    (downloadAndPlay demoEnv emptyState "g1".toList "voice".toList "https://y.t/cached".toList
        "ann".toList "txt".toList false).queue "g1".toList =
      [⟨"Cached Song".toList, "1:01".toList, "k9-youtube".toList, "https://y.t/cached".toList,
        "ann".toList⟩] ∧
    (downloadAndPlay demoEnv emptyState "g1".toList "voice".toList "https://y.t/cached".toList
        "ann".toList "txt".toList false).trace.countP Event.isExtract = 0 :=
  have h := C1_cache_hit_skips_extraction demoEnv emptyState "g1".toList "voice".toList
    "https://y.t/cached".toList "ann".toList "txt".toList false (by decide)
  ⟨h.1, h.2.2.1⟩

/-- The number of recorded entries: two per line when `n = 1`, else one. -/
theorem flatMap_recorded_length {D : Type} (env : Env D) (link user : Str) (n : Nat)
    (ys : List (YoutubeDL D)) :
    (ys.flatMap (fun y => if n = 1 then
      [descriptor env user y, linkedDescriptor env link user y]
      else [descriptor env user y])).length = if n = 1 then 2 * ys.length else ys.length := by
  induction ys with
  | nil => simp
  | cons y rest ih =>
    rw [List.flatMap_cons, List.length_append, ih]
    split_ifs <;> simp <;> omega

/-- Claim C2. Every output of the extractor consists of lines. A call of
`downloadAndPlay` for guild `g` without shuffling leaves the queue of every
other guild as it was and appends the newly resolved entries to the queue
of `g`, after the entries that were there: on a miss one entry per line the
extractor prints, in the order in which the lines are printed, so the
entries of the extractor's records in the order of the records. Three calls
for the links `a`, `b`, `c` leave the old queue followed by the entries of
`a`, then those of `b`, then those of `c`. -/
theorem C2_enqueue_keeps_arrival_order {D : Type} (env : Env D) (st : State)
    (g ch user txt : Str) :
    (∀ out : Str, ∃ lines, PrintsLines out lines) ∧
    (∀ link,
      (∀ g1, g1 ≠ g → (downloadAndPlay env st g ch link user txt false).queue g1 = st.queue g1) ∧
      ∃ new, (downloadAndPlay env st g ch link user txt false).queue g = st.queue g ++ new ∧
        Resolved env st link user txt new) ∧
    (∀ a b c, ∃ na nb nc,
      Resolved env st a user txt na ∧
      Resolved env (downloadAndPlay env st g ch a user txt false) b user txt nb ∧
      Resolved env (downloadAndPlay env (downloadAndPlay env st g ch a user txt false)
        g ch b user txt false) c user txt nc ∧
      (downloadAndPlay env (downloadAndPlay env (downloadAndPlay env st g ch a user txt false)
        g ch b user txt false) g ch c user txt false).queue g = st.queue g ++ na ++ nb ++ nc) := by
  refine ⟨printsLines_exists, fun link => downloadAndPlay_appends env st g ch link user txt,
    fun a b c => ?_⟩
  obtain ⟨_, na, qa, ra⟩ := downloadAndPlay_appends env st g ch a user txt
  obtain ⟨_, nb, qb, rb⟩ := downloadAndPlay_appends env
    (downloadAndPlay env st g ch a user txt false) g ch b user txt
  obtain ⟨_, nc, qc, rc⟩ := downloadAndPlay_appends env
    (downloadAndPlay env (downloadAndPlay env st g ch a user txt false) g ch b user txt false)
    g ch c user txt
  exact ⟨na, nb, nc, ra, rb, rc, by rw [qc, qb, qa]⟩

set_option maxRecDepth 8192

/-- Claim C2 in the example world. The playlist link, whose output is the
line of song A, a newline, the line of song B and a newline, puts song A
and then song B in the queue; the link that prints nothing puts the one
entry of the one empty line in the queue; and the links of the songs A, B
and C, enqueued in that order, are in the queue in that order. -/
theorem C2_three_links_witness :
    (downloadAndPlay demoEnv emptyState "g1".toList "voice".toList "https://y.t/list".toList
        "ann".toList "txt".toList false).queue "g1".toList =
      [⟨"Song A".toList, "1:1".toList, "a1-youtube".toList, "https://y.t/watch?v=a1".toList,
        "ann".toList⟩,
       ⟨"Song B".toList, "1:2".toList, "b2-youtube".toList, "https://y.t/watch?v=b2".toList,
        "ann".toList⟩] ∧
    (downloadAndPlay demoEnv emptyState "g1".toList "voice".toList "https://y.t/gone".toList
        "ann".toList "txt".toList false).queue "g1".toList =
      [⟨[], "0:0".toList, "-".toList, "https://y.t/gone".toList, "ann".toList⟩] ∧
    (downloadAndPlay demoEnv
      (downloadAndPlay demoEnv
        (downloadAndPlay demoEnv emptyState "g1".toList "voice".toList "https://y.t/a1".toList
          "ann".toList "txt".toList false)
        "g1".toList "voice".toList "https://y.t/b2".toList "ann".toList "txt".toList false)
      "g1".toList "voice".toList "https://y.t/c3".toList "ann".toList "txt".toList false).queue
        "g1".toList =
      [⟨"Song A".toList, "1:1".toList, "a1-youtube".toList, "https://y.t/a1".toList, "ann".toList⟩,
       ⟨"Song B".toList, "1:2".toList, "b2-youtube".toList, "https://y.t/b2".toList, "ann".toList⟩,
       ⟨"Song C".toList, "1:3".toList, "c3-youtube".toList, "https://y.t/c3".toList,
        "ann".toList⟩] := by
  have hA : ∀ l ∈ [lineA], '\n' ∉ l := by
    intro l hl
    rw [List.mem_singleton.1 hl]
    decide
  have hB : ∀ l ∈ [lineB], '\n' ∉ l := by
    intro l hl
    rw [List.mem_singleton.1 hl]
    decide
  have hC : ∀ l ∈ [lineC], '\n' ∉ l := by
    intro l hl
    rw [List.mem_singleton.1 hl]
    decide
  have hAB : ∀ l ∈ [lineA, lineB], '\n' ∉ l := by
    intro l hl
    rcases List.mem_cons.1 hl with rfl | hl
    · decide
    · exact hB l hl
  have hE : ∀ l ∈ [([] : Str)], '\n' ∉ l := by
    intro l hl
    rw [List.mem_singleton.1 hl]
    decide
  refine ⟨?_, ?_, ?_⟩
  · obtain ⟨new, hq, hr⟩ := ((C2_enqueue_keeps_arrival_order demoEnv emptyState "g1".toList
      "voice".toList "ann".toList "txt".toList).2.1 "https://y.t/list".toList).2
    have h := ((hr.2 (by decide)) [lineA, lineB] ⟨by decide, hAB, Or.inl rfl⟩).2
      [recA, recB]
      (List.Forall₂.cons (fun _ => rfl) (List.Forall₂.cons (fun _ => rfl) List.Forall₂.nil))
    rw [hq, h]
    decide
  · obtain ⟨new, hq, hr⟩ := ((C2_enqueue_keeps_arrival_order demoEnv emptyState "g1".toList
      "voice".toList "ann".toList "txt".toList).2.1 "https://y.t/gone".toList).2
    have h := ((hr.2 (by decide)) [[]] ⟨by decide, hE, Or.inr ⟨rfl, by decide⟩⟩).1
    rw [hq, h]
    decide
  · obtain ⟨na, nb, nc, ra, rb, rc, hq⟩ :=
      (C2_enqueue_keeps_arrival_order demoEnv emptyState "g1".toList "voice".toList
        "ann".toList "txt".toList).2.2 "https://y.t/a1".toList "https://y.t/b2".toList
        "https://y.t/c3".toList
    have ha := ((ra.2 (by decide)) [lineA] ⟨by decide, hA, Or.inl rfl⟩).2 [recA]
      (List.Forall₂.cons (fun _ => rfl) List.Forall₂.nil)
    have hb := ((rb.2 (by decide)) [lineB] ⟨by decide, hB, Or.inl rfl⟩).2 [recB]
      (List.Forall₂.cons (fun _ => rfl) List.Forall₂.nil)
    have hc := ((rc.2 (by decide)) [lineC] ⟨by decide, hC, Or.inl rfl⟩).2 [recC]
      (List.Forall₂.cons (fun _ => rfl) List.Forall₂.nil)
    rw [hq, ha, hb, hc]
    decide

/-- Claim C4, at the inputs where it fails. When the extractor fails and
prints nothing, the output is one empty line, which is no record, and yet
`downloadAndPlay` appends one entry (empty title, id `-`); when a valid
record is followed by a line that is no record, the second line is
enqueued as well, with the fields left over from the first. -/
theorem C4_malformed_line_is_enqueued :
    extractorLines demoEnv emptyState "https://y.t/gone".toList "txt".toList false = [[]] ∧
    (¬ ∃ r, Decodes demoEnv [] r) ∧
    (downloadAndPlay demoEnv emptyState "g1".toList "voice".toList "https://y.t/gone".toList
        "ann".toList "txt".toList false).queue "g1".toList =
      [⟨[], "0:0".toList, "-".toList, "https://y.t/gone".toList, "ann".toList⟩] ∧
    extractorLines demoEnv emptyState "https://y.t/half".toList "txt".toList false =
      [lineA, "ERROR".toList] ∧
    (¬ ∃ r, Decodes demoEnv "ERROR".toList r) ∧
    (downloadAndPlay demoEnv emptyState "g1".toList "voice".toList "https://y.t/half".toList
        "ann".toList "txt".toList false).queue "g1".toList =
      [⟨"Song A".toList, "1:1".toList, "a1-youtube".toList, "https://y.t/watch?v=a1".toList,
        "ann".toList⟩,
       ⟨"Song A".toList, "1:1".toList, "a1-youtube".toList, "https://y.t/watch?v=a1".toList,
        "ann".toList⟩] := by
  refine ⟨by decide, ?_, by decide, by decide, ?_, by decide⟩
  · rintro ⟨r, h⟩
    have hA : recA = r := h recA
    have hB : recB = r := h recB
    exact absurd (hA.trans hB.symm) (by decide)
  · rintro ⟨r, h⟩
    have hA : recA = r := h recA
    have hB : recB = r := h recB
    exact absurd (hA.trans hB.symm) (by decide)

/-- Claim C4, amended. On a cache miss `downloadAndPlay` appends to the
queue of the guild exactly one entry per line of the extractor's output,
in the order of the lines and whether or not a line decodes; the entry of
a line that is a valid record is built from that record's own fields (its
link is the request link when the output has one line), whatever the
other lines of the batch are. -/
theorem C4_one_entry_per_output_line {D : Type} (env : Env D) (st : State)
    (g ch link user txt : Str) (random : Bool)
    (miss : (cacheLookup env st link txt).title = []) :
    ∃ new, (downloadAndPlay env st g ch link user txt random).queue g = st.queue g ++ new ∧
      new.length = (extractorLines env st link txt random).length ∧
      ∀ (i : Nat) (line : Str) (r : YoutubeDL D),
        (extractorLines env st link txt random)[i]? = some line →
        Decodes env line r →
        new[i]? = some (enqueued env link user (extractorLines env st link txt random).length r) := by
  rw [downloadAndPlay_miss_queue env st g ch link user txt random miss]
  refine ⟨(decodeAll env (extractorLines env st link txt random) (zeroYoutubeDL env)).map
    (enqueued env link user (extractorLines env st link txt random).length), by simp,
    by simp [decodeAll_length], ?_⟩
  intro i line r hi hd
  rw [List.getElem?_map, decodeAll_getElem? env _ _ i line r hi hd]
  rfl

/-- Claim C4, amended, on the playlist of the example world: the link
misses the cache, and two lines give two entries. -/
theorem C4_one_entry_per_output_line_witness :
    (cacheLookup demoEnv emptyState "https://y.t/list".toList "txt".toList).title = [] ∧
    ∃ new, (downloadAndPlay demoEnv emptyState "g1".toList "voice".toList
        "https://y.t/list".toList "ann".toList "txt".toList false).queue "g1".toList =
        emptyState.queue "g1".toList ++ new ∧
      new.length =
        (extractorLines demoEnv emptyState "https://y.t/list".toList "txt".toList false).length ∧
      ∀ (i : Nat) (line : Str) (r : YoutubeDL Nat),
        (extractorLines demoEnv emptyState "https://y.t/list".toList "txt".toList false)[i]?
          = some line →
        Decodes demoEnv line r →
        new[i]? = some (enqueued demoEnv "https://y.t/list".toList "ann".toList
          (extractorLines demoEnv emptyState "https://y.t/list".toList "txt".toList false).length
          r) :=
  ⟨by decide, C4_one_entry_per_output_line demoEnv emptyState "g1".toList "voice".toList
    "https://y.t/list".toList "ann".toList "txt".toList false (by decide)⟩

/-- Claim C5, at an input where it fails. In the example world no converted
file is on disk and the download and the conversion both fail; the call for
the link of song A records the entry twice before the download is even
started, appends it to the queue and launches its playback. -/
theorem C5_failed_fetch_is_recorded_and_enqueued :
    (downloadAndPlay demoEnv emptyState "g1".toList "voice".toList "https://y.t/a1".toList
        "ann".toList "txt".toList false).trace =
      [Event.sendEmbed "txt".toList "https://y.t/a1".toList,
       Event.ytdlInfo "https://y.t/a1".toList,
       Event.stat "./audio_cache/a1-youtube.dca".toList,
       Event.addToDb ⟨"Song A".toList, "1:1".toList, "a1-youtube".toList,
         "https://y.t/watch?v=a1".toList, "ann".toList⟩,
       Event.addToDb ⟨"Song A".toList, "1:1".toList, "a1-youtube".toList,
         "https://y.t/a1".toList, "ann".toList⟩,
       Event.ytdlDownload "download/a1-youtube.m4a".toList "https://y.t/watch?v=a1".toList
         false,
       Event.genSh "a1-youtube".toList "a1-youtube.m4a".toList false,
       Event.remove "./download/a1-youtube.m4a".toList,
       Event.playSound "g1".toList "voice".toList "a1-youtube.dca".toList "txt".toList] ∧
    (downloadAndPlay demoEnv emptyState "g1".toList "voice".toList "https://y.t/a1".toList
        "ann".toList "txt".toList false).queue "g1".toList =
      [⟨"Song A".toList, "1:1".toList, "a1-youtube".toList, "https://y.t/a1".toList,
        "ann".toList⟩] := by
  decide

/-- Claim C5, amended. On a cache miss `downloadAndPlay` records the cache
entry of a record before it starts the download of that record's file, and
it does so, appends one queue entry and launches one playback for every
line of the output whatever the download and the conversion answer (their
statuses are discarded): every download in the trace of the call follows
an `addToDb` of the entry whose id names the downloaded file, the call
records one entry per line (one more when the output has one line),
launches one playback per line and makes the queue longer by one entry
per line. -/
theorem C5_recorded_before_fetch_whatever_its_outcome {D : Type} (env : Env D) (st : State)
    (g ch link user txt : Str) (random : Bool)
    (miss : (cacheLookup env st link txt).title = []) :
    ∃ new, (downloadAndPlay env st g ch link user txt random).trace = st.trace ++ new ∧
      recordedBeforeFetch [] new = true ∧
      (new.filterMap Event.recorded).length =
        (extractorLines env st link txt random).length +
          (if (extractorLines env st link txt random).length = 1 then 1 else 0) ∧
      new.countP Event.isPlaySound = (extractorLines env st link txt random).length ∧
      ((downloadAndPlay env st g ch link user txt random).queue g).length =
        (st.queue g).length + (extractorLines env st link txt random).length := by
  obtain ⟨new, htr, hl⟩ := downloadAndPlay_miss_trace env st g ch link user txt random miss
  refine ⟨_, htr, ?_, ?_, ?_, ?_⟩
  · simpa [recordedBeforeFetch] using hl.ordered []
  · simp only [List.filterMap_cons, Event.recorded]
    rw [hl.recorded, flatMap_recorded_length, decodeAll_length]
    split_ifs with h <;> omega
  · simpa [List.countP_cons, Event.isPlaySound, decodeAll_length] using hl.plays
  · rw [downloadAndPlay_miss_queue env st g ch link user txt random miss]
    simp [decodeAll_length]

/-- Claim C5, amended, on the link of song A of the example world, where
every download and conversion fails. -/
theorem C5_recorded_before_fetch_witness :
    (cacheLookup demoEnv emptyState "https://y.t/a1".toList "txt".toList).title = [] ∧
    ∃ new, (downloadAndPlay demoEnv emptyState "g1".toList "voice".toList
        "https://y.t/a1".toList "ann".toList "txt".toList false).trace =
        emptyState.trace ++ new ∧
      recordedBeforeFetch [] new = true ∧
      (new.filterMap Event.recorded).length =
        (extractorLines demoEnv emptyState "https://y.t/a1".toList "txt".toList false).length +
          (if (extractorLines demoEnv emptyState "https://y.t/a1".toList "txt".toList
            false).length = 1 then 1 else 0) ∧
      new.countP Event.isPlaySound =
        (extractorLines demoEnv emptyState "https://y.t/a1".toList "txt".toList false).length ∧
      ((downloadAndPlay demoEnv emptyState "g1".toList "voice".toList
        "https://y.t/a1".toList "ann".toList "txt".toList false).queue "g1".toList).length =
        (emptyState.queue "g1".toList).length +
          (extractorLines demoEnv emptyState "https://y.t/a1".toList "txt".toList false).length :=
  ⟨by decide, C5_recorded_before_fetch_whatever_its_outcome demoEnv emptyState "g1".toList
    "voice".toList "https://y.t/a1".toList "ann".toList "txt".toList false (by decide)⟩

/-- Claim C6, at inputs where the code departs from it. When the
extractor fails and prints nothing, the output is one empty line, which is
no record: there is no song, and yet `addToDb` is called twice, the second
time with the request link, so the entry with the empty title and the id
`-` is recorded under the link `https://y.t/gone` (the test is on the
number of lines, `len(strOut) == 1`, where the comment above it says
"If we have a single song"). When the output is one valid record followed
by a line that is no record, there is exactly one valid record and yet
`addToDb` is called once per line, never with the request link
`https://y.t/half`. -/
theorem C6_second_record_without_single_valid_record :
    extractorLines demoEnv emptyState "https://y.t/gone".toList "txt".toList false = [[]] ∧
    (¬ ∃ r, Decodes demoEnv [] r) ∧
    (downloadAndPlay demoEnv emptyState "g1".toList "voice".toList "https://y.t/gone".toList
        "ann".toList "txt".toList false).trace.filterMap Event.recorded =
      [⟨[], "0:0".toList, "-".toList, [], "ann".toList⟩,
       ⟨[], "0:0".toList, "-".toList, "https://y.t/gone".toList, "ann".toList⟩] ∧
    extractorLines demoEnv emptyState "https://y.t/half".toList "txt".toList false =
      [lineA, "ERROR".toList] ∧
    Decodes demoEnv lineA recA ∧
    (¬ ∃ r, Decodes demoEnv "ERROR".toList r) ∧
    (downloadAndPlay demoEnv emptyState "g1".toList "voice".toList "https://y.t/half".toList
        "ann".toList "txt".toList false).trace.filterMap Event.recorded =
      [⟨"Song A".toList, "1:1".toList, "a1-youtube".toList, "https://y.t/watch?v=a1".toList,
        "ann".toList⟩,
       ⟨"Song A".toList, "1:1".toList, "a1-youtube".toList, "https://y.t/watch?v=a1".toList,
        "ann".toList⟩] := by
  refine ⟨by decide, ?_, by decide, by decide, fun _ => rfl, ?_, by decide⟩
  · rintro ⟨r, h⟩
    have hA : recA = r := h recA
    have hB : recB = r := h recB
    exact absurd (hA.trans hB.symm) (by decide)
  · rintro ⟨r, h⟩
    have hA : recA = r := h recA
    have hB : recB = r := h recB
    exact absurd (hA.trans hB.symm) (by decide)

/-- The `addToDb` calls of a call that misses the cache, in order: for each
line of the output the descriptor of the value `ytdl` holds after the line
is decoded, followed, when the output has exactly one line, by the same
descriptor under the request link. -/
theorem downloadAndPlay_miss_recorded {D : Type} (env : Env D) (st : State)
    (g ch link user txt : Str) (random : Bool)
    (miss : (cacheLookup env st link txt).title = []) :
    ∃ new, (downloadAndPlay env st g ch link user txt random).trace = st.trace ++ new ∧
      new.filterMap Event.recorded =
        (decodeAll env (extractorLines env st link txt random) (zeroYoutubeDL env)).flatMap
          (fun y => if (extractorLines env st link txt random).length = 1 then
            [descriptor env user y, linkedDescriptor env link user y]
            else [descriptor env user y]) := by
  obtain ⟨new, htr, hl⟩ := downloadAndPlay_miss_trace env st g ch link user txt random miss
  refine ⟨_, htr, ?_⟩
  simp only [List.filterMap_cons, Event.recorded]
  exact hl.recorded

/-! ## The `queue` command -/

/-- One iteration of the loop of the `queue` command appends the rendering
of one entry. -/
theorem queueLoop_cons (i : Nat) (el : Queue) (rest : List Queue) (message : Str) :
    queueLoop i (el :: rest) message = queueLoop (i + 1) rest (message ++ renderEntry i el) := by
  rw [queueLoop]
  by_cases hi : i = 0 <;> by_cases ht : el.title = [] <;>
    simp [hi, ht, renderEntry, entryDetails]

/-- The loop of the `queue` command appends the renderings of the entries
it is given, numbered from `i`. -/
theorem queueLoop_eq (q : List Queue) : ∀ (i : Nat) (message : Str),
    queueLoop i q message =
      message ++ (List.enumFrom i q).flatMap (fun p => renderEntry p.1 p.2) := by
  induction q with
  | nil => intro i message; simp [queueLoop]
  | cons el rest ih =>
    intro i message
    rw [queueLoop_cons, ih, List.enumFrom_cons, List.flatMap_cons, List.append_assoc]

/-- Claim C3. The text the `queue` command builds is the concatenation, in
queue order, of one rendering per entry of the queue, none left out: entry
0 as "Currently playing: ", its details with " added by ", and a blank
line; the entry at index `i >= 1` as `i`, a bracket, its details with
" by ", on a line of its own; the details of an entry with an empty title
being the placeholder "Getting info...". -/
theorem C3_queue_message_lists_every_entry (q : List Queue) :
    queueMessage q = (List.enum q).flatMap (fun p => renderEntry p.1 p.2) := by
  rw [queueMessage, queueLoop_eq]
  rfl

/-- A message of another user whose command word is the prefix followed by
`queue` or by `q` is answered with the text of the queue of its guild. -/
theorem messageCreate_queue (cfg : Config) (queue : Str → List Queue) (m : Message)
    (hself : cfg.selfID ≠ m.AuthorID)
    (hw : commandWord cfg m = cfg.Prefix ++ "queue".toList ∨
      commandWord cfg m = cfg.Prefix ++ "q".toList) :
    messageCreate cfg queue m = Action.queue (queueMessage (queue m.GuildID)) := by
  rcases hw with hw | hw <;> simp [messageCreate, hself, hw]

/-- The text of the `queue` command for a queue of two entries, the second
of which has no title yet. -/
theorem queueMessage_example :
    queueMessage [⟨"Song A".toList, "1:01".toList, "a1-youtube".toList, [], "ann".toList⟩,
      ⟨[], [], "-".toList, [], "bob".toList⟩] =
      "Currently playing: Song A - 1:01 added by ann\n\n1) Getting info...\n".toList := by
  decide

/-! ## `spotifyPlaylist` -/

/-- When every track has an artist, the loop of `spotifyPlaylist` launches
one search per track, in playlist order, for the name of the track, a
dash and the name of its first artist, and returns. -/
theorem spotifyLoop_all_artists (g ch user txt : Str) (random : Bool) (tracks : List Track) :
    ∀ st : State, (∀ t ∈ tracks, t.Artists ≠ []) →
      spotifyLoop g ch user txt random tracks st =
        (⟨st.queue, st.trace ++ tracks.map (fun t =>
          Event.goSearch g ch (t.Name ++ " - ".toList ++ t.Artists.headD []) user txt random)⟩,
          Outcome.returned) := by
  induction tracks with
  | nil => intro st _; simp [spotifyLoop]
  | cons t rest ih =>
    intro st h
    have ht := h t (List.mem_cons_self _ _)
    rw [spotifyLoop]
    cases hA : t.Artists with
    | nil => exact absurd hA ht
    | cons a _ =>
      simp only
      rw [ih _ (fun t1 h1 => h t1 (List.mem_cons_of_mem _ h1))]
      simp [State.emit, hA]

/-- Claim C7, at an input where the code departs from it. With the prefix
`!`, the message `!play spotify:playlist:pl1` is routed to
`spotifyPlaylist`, but the playlist id it is handed is the whole message
(the verb trimmed there is `!spotify `, which the message does not start
with), so the `spotify:playlist:` marker is not trimmed either and the
playlist API is queried with the whole message, not with `pl1`; the
playlist `pl1` exists, the query fails. -/
theorem C7_playlist_queried_with_whole_message :
    messageCreate demoConfig emptyState.queue (demoMessage "!play spotify:playlist:pl1".toList) =
      Action.spotifyPlaylist "g1".toList "voice".toList "ann".toList
        "!play spotify:playlist:pl1".toList "txt".toList ∧
    (spotifyPlaylist demoEnv emptyState "g1".toList "voice".toList "ann".toList
        "!play spotify:playlist:pl1".toList "txt".toList false).1.trace =
      [Event.getPlaylist "!play spotify:playlist:pl1".toList, Event.printErr] ∧
    (demoEnv.getPlaylist [] "pl1".toList).isSome = true := by
  decide

/-- Claim C8, at an input where the code departs from it. The playlist
`pl1` of the example world has a second track without artists: the call
launches the search for the first track and then stops with the panic
`index out of range`; the third track is never searched for. -/
theorem C8_track_without_artist_panics :
    (spotifyPlaylist demoEnv emptyState "g1".toList "voice".toList "ann".toList
        "spotify:playlist:pl1".toList "txt".toList false).2 = Outcome.panicIndexOutOfRange ∧
    (spotifyPlaylist demoEnv emptyState "g1".toList "voice".toList "ann".toList
        "spotify:playlist:pl1".toList "txt".toList false).1.trace =
      [Event.getPlaylist "pl1".toList,
       Event.goSearch "g1".toList "voice".toList "Song - Artist".toList "ann".toList
         "txt".toList false] := by
  decide

/-! ## The play branch of `messageCreate` -/

/-- The first field of a split is the text before the first separator. -/
theorem Split_headD (sep : Char) (rest : Str) :
    ∀ w : Str, sep ∉ w → (Split (w ++ sep :: rest) sep).headD [] = w := by
  intro w
  induction w with
  | nil => intro _; simp [Split]
  | cons c w ih =>
    intro h
    have hc : c ≠ sep := fun e => h (e ▸ List.mem_cons_self _ _)
    have hw := ih (fun hm => h (List.mem_cons_of_mem _ hm))
    rw [List.cons_append, Split, if_neg hc]
    cases hS : Split (w ++ sep :: rest) sep with
    | nil => rw [hS] at hw; simp at hw; simp [← hw]
    | cons x xs => rw [hS] at hw; simp at hw; simp [hw]

/-- A common leading part can be dropped from both sides of `HasPrefix`. -/
theorem HasPrefix_append (p s t : Str) : HasPrefix (p ++ t) (p ++ s) = HasPrefix t s := by
  simp only [HasPrefix]
  rw [Bool.eq_iff_iff, List.isPrefixOf_iff_prefix, List.isPrefixOf_iff_prefix]
  exact List.prefix_append_right_inj p

/-- Trimming `p` from `p ++ a` leaves `a`. -/
theorem TrimPrefix_append (p a : Str) : TrimPrefix (p ++ a) p = a := by
  have h : HasPrefix (p ++ a) p = true := by
    simp only [HasPrefix]
    rw [List.isPrefixOf_iff_prefix]
    exact List.prefix_append p a
  simp [TrimPrefix, h]

/-- Trimming what is not there changes nothing. -/
theorem TrimPrefix_of_not (s p : Str) (h : HasPrefix s p = false) : TrimPrefix s p = s := by
  simp [TrimPrefix, h]

/-- The command word of a message that starts with a lower-case prefix
without a blank, a lower-case ASCII verb without a blank, and a blank. -/
theorem commandWord_verb (cfg : Config) (m : Message) (verb a : Str)
    (hlow : ToLower cfg.lowerNonASCII cfg.Prefix = cfg.Prefix)
    (hsp : ' ' ∉ cfg.Prefix)
    (hverb : ToLower cfg.lowerNonASCII verb = verb) (hvsp : ' ' ∉ verb)
    (hc : m.Content = cfg.Prefix ++ (verb ++ ' ' :: a)) :
    commandWord cfg m = cfg.Prefix ++ verb := by
  have hl : ToLower cfg.lowerNonASCII m.Content =
      (cfg.Prefix ++ verb) ++ ' ' :: ToLower cfg.lowerNonASCII a := by
    rw [hc]
    have e1 : ToLower cfg.lowerNonASCII (cfg.Prefix ++ (verb ++ ' ' :: a)) =
        ToLower cfg.lowerNonASCII cfg.Prefix ++ (ToLower cfg.lowerNonASCII verb ++
          lowerRune cfg.lowerNonASCII ' ' :: ToLower cfg.lowerNonASCII a) := by
      simp [ToLower]
    rw [e1, hlow, hverb]
    have e2 : lowerRune cfg.lowerNonASCII ' ' = ' ' := rfl
    rw [e2, List.append_assoc]
  rw [commandWord, hl]
  apply Split_headD
  intro hm
  rcases List.mem_append.1 hm with h | h
  · exact hsp h
  · exact hvsp h

/-- Claim C10, at inputs where it fails. With the prefix `!` the message
`!play !p x`, whose argument is `!p x`, hands the query `x` to the
resolver: the argument loses its own leading `!p `. With a lower-case
prefix that holds a blank, `yo `, the message `yo play x` is no command
at all. A message `!play x` written by the bot itself is ignored. -/
theorem C10_play_trims_twice :
    messageCreate demoConfig emptyState.queue (demoMessage "!play !p x".toList) =
      Action.searchDownloadAndPlay "g1".toList "voice".toList "x".toList "ann".toList
        "txt".toList ∧
    messageCreate { demoConfig with Prefix := "yo ".toList } emptyState.queue
      (demoMessage "yo play x".toList) = Action.noCommand ∧
    messageCreate demoConfig emptyState.queue
      { demoMessage "!play x".toList with AuthorID := "bot".toList } = Action.ignored := by
  decide

/-- Claim C10, amended. For every lower-case command prefix `P` without a
blank and every argument `a`, a message `P + "p " + a`, and a message
`P + "play " + a` whose argument does not itself start with `P + "p "`, is
dispatched to the play branch, and the link classified and handed to the
resolver is exactly `a`. -/
theorem C10_play_hands_over_the_argument (cfg : Config) (queue : Str → List Queue)
    (m : Message) (a : Str)
    (hself : cfg.selfID ≠ m.AuthorID)
    (hlow : ToLower cfg.lowerNonASCII cfg.Prefix = cfg.Prefix)
    (hsp : ' ' ∉ cfg.Prefix) :
    (m.Content = cfg.Prefix ++ "p ".toList ++ a →
      messageCreate cfg queue m = resolveLink cfg m a) ∧
    (m.Content = cfg.Prefix ++ "play ".toList ++ a →
      HasPrefix a (cfg.Prefix ++ "p ".toList) = false →
      messageCreate cfg queue m = resolveLink cfg m a) := by
  constructor
  · intro hc
    have hw : commandWord cfg m = cfg.Prefix ++ "p".toList :=
      commandWord_verb cfg m "p".toList a hlow hsp rfl (by decide)
        (by rw [hc, List.append_assoc]; rfl)
    have h1 : TrimPrefix (cfg.Prefix ++ "p ".toList ++ a) (cfg.Prefix ++ "play ".toList) =
        cfg.Prefix ++ "p ".toList ++ a :=
      TrimPrefix_of_not _ _ (by rw [List.append_assoc, HasPrefix_append]; rfl)
    have hl : playLink cfg m = a := by
      rw [playLink, hc, h1, TrimPrefix_append]
    simp only [messageCreate, if_neg hself, hw, playBranch, hl]
    simp
  · intro hc hno
    have hw : commandWord cfg m = cfg.Prefix ++ "play".toList :=
      commandWord_verb cfg m "play".toList a hlow hsp rfl (by decide)
        (by rw [hc, List.append_assoc]; rfl)
    have hl : playLink cfg m = a := by
      rw [playLink, hc, TrimPrefix_append, TrimPrefix_of_not _ _ hno]
    simp only [messageCreate, if_neg hself, hw, playBranch, hl]
    simp

/-- Claim C10, amended, on the messages `!p never gonna` and
`!play never gonna` of the example configuration: both hand the query
`never gonna` to the search. -/
theorem C10_play_hands_over_the_argument_witness :
    messageCreate demoConfig emptyState.queue (demoMessage "!p never gonna".toList) =
      Action.searchDownloadAndPlay "g1".toList "voice".toList "never gonna".toList
        "ann".toList "txt".toList ∧
    messageCreate demoConfig emptyState.queue (demoMessage "!play never gonna".toList) =
      Action.searchDownloadAndPlay "g1".toList "voice".toList "never gonna".toList
        "ann".toList "txt".toList :=
  ⟨(C10_play_hands_over_the_argument demoConfig emptyState.queue
      (demoMessage "!p never gonna".toList) "never gonna".toList (by decide) (by decide)
      (by decide)).1 rfl,
   (C10_play_hands_over_the_argument demoConfig emptyState.queue
      (demoMessage "!play never gonna".toList) "never gonna".toList (by decide) (by decide)
      (by decide)).2 rfl rfl⟩

end YADMB
